import Mathlib

/-!
A verification development for the invitation & notification dispatch engine of the
GeoCachingEngine repository. The TypeScript sources are embedded shallowly:

* the email module (`src/unnamed/part_000`): rate limiting (`countEmails`,
  `checkRateLimit`, `precheckRateLimit`), audit logging (`logEmail`), template
  helpers (`renderTemplate`, `ensureInviteLinkPlaceholder`, `ensureInviteLink`)
  and the dispatch routine (`sendInvitationEmail`);
* the HTTP handlers of `src/backend/src/index.ts`: invitation creation
  (`POST /api/admin/events/:id/invitations`), invitation activation toggling,
  event deletion, the email-log listing and join resolution;
* the retention cleanup script (`src/unnamed/part_001`).

Conventions of the embedding:

* JavaScript `Date` values and `Date.now()` timestamps are epoch milliseconds (`Int`).
* Nullable / optional TS values are `Option`; JS truthiness of strings and numbers is
  modelled explicitly (`optStrTruthy`, `optIntTruthy`: `null`/`undefined`/`""`/`0` are
  falsy).
* Database reads are passed in explicitly.  Where the same table is read twice during
  one request (settings, the audit log), the two snapshots are separate parameters so
  that writes interleaved by concurrent requests can be expressed.
* External nondeterminism is a parameter: the generated token and row ids, the
  transport outcome (`transportOk`, `transportErrMsg`), and whether the audit-store
  insert performed by `logEmail` succeeds (`auditOk`; `logEmail` swallows the failure).
* `crypto.randomBytes` and row id generation are inputs, not modelled.
-/

/-! ## JS truthiness helpers -/

/-- JS truthiness of a nullable string: `null`/`undefined` and `""` are falsy. -/
def optStrTruthy : Option String → Bool
  | none => false
  | some s => !s.isEmpty

/-- JS truthiness of a nullable number: `null`/`undefined` and `0` are falsy. -/
def optIntTruthy : Option Int → Bool
  | none => false
  | some n => decide (n ≠ 0)

/-- JS `a || b` on nullable strings: the first operand if truthy, otherwise the second. -/
def jsOrOpt (a b : Option String) : Option String :=
  if optStrTruthy a then a else b

/-- JS `a || b` where the right operand is a plain (always truthy or default) string. -/
def jsOrStr (a : Option String) (b : String) : String :=
  match a with
  | some s => if s.isEmpty then b else s
  | none => b

/-! ## String primitives mirroring the JS string methods used by the source

All operate on `List Char` (`String.data`); `String.replace(search, repl)` with a
string pattern replaces the first occurrence only.  The `$`-substitution patterns of
JS `String.prototype.replace` are not modelled (no caller passes a replacement
containing `$`). -/

/-- JS `s.includes(sub)`. -/
def containsSub : List Char → List Char → Bool
  | [], su => su.isPrefixOf ([] : List Char)
  | c :: rest, su => su.isPrefixOf (c :: rest) || containsSub rest su

/-- JS `s.includes(sub)` on `String`. -/
def strIncludes (s su : String) : Bool := containsSub s.data su.data

/-- JS `s.replace(su, repl)` with a string pattern: replace the first occurrence. -/
def replaceFirstAux (su repl : List Char) : List Char → List Char
  | [] => if su.isPrefixOf ([] : List Char) then repl else []
  | c :: rest =>
    if su.isPrefixOf (c :: rest) then repl ++ (c :: rest).drop su.length
    else c :: replaceFirstAux su repl rest

/-- JS `s.replace(su, repl)` on `String`. -/
def replaceFirst (s su repl : String) : String :=
  ⟨replaceFirstAux su.data repl.data s.data⟩

/-- Number of start positions at which `su` occurs in `s` (occurrences may overlap).
Used to state "contains the literal link exactly once". -/
def countOcc (su : List Char) : List Char → Nat
  | [] => if su.isPrefixOf ([] : List Char) then 1 else 0
  | c :: rest => (if su.isPrefixOf (c :: rest) then 1 else 0) + countOcc su rest

/-! ## Data model (prisma rows, restricted to the fields the engine reads) -/

/-- `EmailStatus` enum of the prisma schema: the closed outcome enumeration of an
audit record. -/
inductive PrismaEmailStatus where
  | SENT
  | FAILED
  | DISABLED
  | RATE_LIMITED
deriving DecidableEq, Repr

/-- The string value of each enum member, as persisted / received over HTTP. -/
def emailStatusToString : PrismaEmailStatus → String
  | .SENT => "SENT"
  | .FAILED => "FAILED"
  | .DISABLED => "DISABLED"
  | .RATE_LIMITED => "RATE_LIMITED"

/-- `Object.values(PrismaEmailStatus).includes(s)` and the subsequent cast, as one
partial parse: `some` exactly on the four valid enum strings. -/
def emailStatusOfString (s : String) : Option PrismaEmailStatus :=
  if s = "SENT" then some .SENT
  else if s = "FAILED" then some .FAILED
  else if s = "DISABLED" then some .DISABLED
  else if s = "RATE_LIMITED" then some .RATE_LIMITED
  else none

/-- An `EmailLog` row (the audit record). -/
structure EmailLog where
  recipient : String
  subject : String
  status : PrismaEmailStatus
  errorMessage : Option String
  eventId : Option String
  invitationId : Option String
  adminId : Option String
  createdAt : Int
deriving DecidableEq, Repr

/-- The `SystemSetting` row (singleton, id 1). -/
structure SystemSetting where
  smtpHost : Option String
  smtpPort : Option Int
  smtpUseTls : Option Bool
  smtpFromAddress : Option String
  smtpFromName : Option String
  smtpUser : Option String
  smtpPassword : Option String
  maxEmailsPerHourPerAdmin : Option Int
  maxEmailsPerDayPerAdmin : Option Int
deriving DecidableEq, Repr

/-- An `Event` row, restricted to the fields this engine reads. -/
structure Event where
  id : String
  name : String
  description : Option String
  startsAt : Int
  endsAt : Int
  senderEmail : Option String
  senderName : Option String
  invitationEmailSubject : Option String
  invitationEmailBody : Option String
deriving DecidableEq, Repr

/-- Delivery method of an invitation. -/
inductive DeliveryMethod where
  | LINK
  | EMAIL
deriving DecidableEq, Repr

/-- An `Invitation` row. -/
structure Invitation where
  id : String
  eventId : String
  token : String
  deliveryMethod : DeliveryMethod
  email : Option String
  isActive : Bool
  createdAt : Int
  deactivatedAt : Option Int
  usedAt : Option Int
deriving DecidableEq, Repr

/-- A `Cache` row (only the columns the deletion paths filter on). -/
structure Cache where
  id : String
  eventId : String
deriving DecidableEq, Repr

/-- A `CacheFind` row. -/
structure CacheFind where
  id : String
  cacheId : String
deriving DecidableEq, Repr

/-- A `Player` row. -/
structure Player where
  id : String
  eventId : String
deriving DecidableEq, Repr

/-- The durable store, as the lists of rows of each table. -/
structure Db where
  events : List Event
  invitations : List Invitation
  caches : List Cache
  cacheFinds : List CacheFind
  players : List Player
  emailLogs : List EmailLog
deriving DecidableEq, Repr

/-- Modelled from the spec: the prisma schema file is not part of the sources, and it
supplies the column defaults used by `prisma.invitation.create` (which passes only
`eventId`, `token`, `deliveryMethod`, `email`).  Per §4.2 (Token Issuer), `issue`
"creates the Invitation row with `isActive = true`, no `usedAt`", and `deactivatedAt`
is unset on creation. -/
def mkInvitation (id eventId token : String) (deliveryMethod : DeliveryMethod)
    (email : Option String) (now : Int) : Invitation :=
  { id := id, eventId := eventId, token := token, deliveryMethod := deliveryMethod,
    email := email, isActive := true, createdAt := now, deactivatedAt := none,
    usedAt := none }

/-! ## Email module (`src/unnamed/part_000`) -/

/-- `isEmailSendingEnabled`: all five SMTP settings must be (JS-)truthy. -/
def isEmailSendingEnabled : Option SystemSetting → Bool
  | none => false
  | some st =>
    optStrTruthy st.smtpHost && optIntTruthy st.smtpPort &&
      optStrTruthy st.smtpFromAddress && optStrTruthy st.smtpUser &&
      optStrTruthy st.smtpPassword

def DEFAULT_SUBJECT : String := "Einladung: \x7b\x7beventName\x7d\x7d"

def DEFAULT_BODY : String :=
  "Du wurdest zu \x7b\x7beventName\x7d\x7d eingeladen.\n\nEventstart: \x7b\x7beventStart\x7d\x7d\nEventende: \x7b\x7beventEnd\x7d\x7d\n\nEinladungslink: \x7b\x7binviteLink\x7d\x7d"

/-- The `TemplateContext` built by `sendInvitationEmail`. -/
structure TemplateContext where
  eventName : Option String
  eventDescription : Option String
  eventStart : Option String
  eventEnd : Option String
  inviteLink : Option String
deriving DecidableEq, Repr

/-- Property lookup on the context object; unknown keys resolve to `none`
(JS `undefined`).  Prototype-inherited keys are not modelled. -/
def ctxLookup (ctx : TemplateContext) (key : String) : Option String :=
  if key = "eventName" then ctx.eventName
  else if key = "eventDescription" then ctx.eventDescription
  else if key = "eventStart" then ctx.eventStart
  else if key = "eventEnd" then ctx.eventEnd
  else if key = "inviteLink" then ctx.inviteLink
  else none

/-- Scan for the lazily-matched closing braces of the regex `\x7b\x7b(.*?)\x7d\x7d`:
returns the key (everything before the first closing pair) and the remainder after
it.  `.` does not match a newline, so a newline before the closing pair makes the
match fail. -/
def scanKey : List Char → Option (List Char × List Char)
  | [] => none
  | '\x7d' :: '\x7d' :: rest => some ([], rest)
  | '\n' :: _ => none
  | c :: rest =>
    match scanKey rest with
    | some (k, r) => some (c :: k, r)
    | none => none

/-- One left-to-right pass of `template.replace(re, (m, key) => ctx[key.trim()] ?? '')`.
`fuel` is initialised to the length of the input and dominates it throughout, so the
fuel-exhaustion branch is never taken. -/
def renderAux (ctx : TemplateContext) : Nat → List Char → List Char
  | 0, _ => []
  | _ + 1, [] => []
  | fuel + 1, '\x7b' :: '\x7b' :: rest =>
    match scanKey rest with
    | some (k, r) =>
      ((ctxLookup ctx (String.mk k).trim).getD "").data ++ renderAux ctx fuel r
    | none => '\x7b' :: renderAux ctx fuel ('\x7b' :: rest)
  | fuel + 1, c :: rest => c :: renderAux ctx fuel rest

/-- `renderTemplate`: substitute `\x7b\x7bname\x7d\x7d` placeholders; absent keys
become the empty string. -/
def renderTemplate (template : String) (ctx : TemplateContext) : String :=
  ⟨renderAux ctx template.data.length template.data⟩

/-- `ensureInviteLinkPlaceholder`: append the default link line unless the
placeholder is already present. -/
def ensureInviteLinkPlaceholder (body : String) : String :=
  if strIncludes body "\x7b\x7binviteLink\x7d\x7d" then body
  else body ++ "\n\nEinladungslink: \x7b\x7binviteLink\x7d\x7d"

/-- `ensureInviteLink` (exported helper): keep the body if it already carries the
literal link; otherwise substitute the placeholder if present; otherwise append the
link on its own paragraph. -/
def ensureInviteLink (body link : String) : String :=
  if strIncludes body link then body
  else if strIncludes body "\x7b\x7binviteLink\x7d\x7d" then
    replaceFirst body "\x7b\x7binviteLink\x7d\x7d" link
  else body ++ "\n\n" ++ link

/-- The rate-limit ceilings: the per-admin override from settings, else the
environment default (`MAX_EMAILS_PER_HOUR_PER_ADMIN` / `..._DAY_...`, themselves
defaulting to 50 / 200).  The environment values are parameters of the embedding. -/
structure RateLimitConfig where
  perHour : Int
  perDay : Int
deriving DecidableEq, Repr

def getRateLimitConfig (settings : Option SystemSetting) (envPerHour envPerDay : Int) :
    RateLimitConfig :=
  { perHour := (settings.bind (·.maxEmailsPerHourPerAdmin)).getD envPerHour,
    perDay := (settings.bind (·.maxEmailsPerDayPerAdmin)).getD envPerDay }

/-- `countEmails`: audit records of this admin since the cutoff, excluding
`RATE_LIMITED` ones. -/
def countEmails (logs : List EmailLog) (adminId : String) (since : Int) : Nat :=
  logs.countP fun l =>
    decide (l.adminId = some adminId ∧ since ≤ l.createdAt ∧
      l.status ≠ PrismaEmailStatus.RATE_LIMITED)

/-- The result shape of `checkRateLimit`. -/
structure RateCheck where
  allowed : Bool
  message : Option String
deriving DecidableEq, Repr

def hourMessage (n : Int) : String :=
  "Limit erreicht (" ++ toString n ++ " pro Stunde)."

def dayMessage (n : Int) : String :=
  "Limit erreicht (" ++ toString n ++ " pro Tag)."

/-- `checkRateLimit`: hourly window first (deny when the ceiling is positive and
reached), then the daily window; a falsy admin id short-circuits to allowed. -/
def checkRateLimit (adminId : Option String) (settings : Option SystemSetting)
    (envPerHour envPerDay : Int) (logs : List EmailLog) (now : Int) : RateCheck :=
  match adminId with
  | none => ⟨true, none⟩
  | some a =>
    if a.isEmpty then ⟨true, none⟩
    else
      let limits := getRateLimitConfig settings envPerHour envPerDay
      let perHour : Int := countEmails logs a (now - 60 * 60 * 1000)
      if 0 < limits.perHour ∧ limits.perHour ≤ perHour then
        ⟨false, some (hourMessage limits.perHour)⟩
      else
        let perDay : Int := countEmails logs a (now - 24 * 60 * 60 * 1000)
        if 0 < limits.perDay ∧ limits.perDay ≤ perDay then
          ⟨false, some (dayMessage limits.perDay)⟩
        else ⟨true, none⟩

/-- `precheckRateLimit`: re-reads the settings (`getEmailConfig`) and delegates; the
freshly read settings row is the `settings` argument. -/
def precheckRateLimit (adminId : Option String) (settings : Option SystemSetting)
    (envPerHour envPerDay : Int) (logs : List EmailLog) (now : Int) : RateCheck :=
  checkRateLimit adminId settings envPerHour envPerDay logs now

/-- Build the `EmailLog` row inserted by `logEmail` / the handler. -/
def mkLog (recipient subject : String) (status : PrismaEmailStatus)
    (errorMessage : Option String) (eventId invitationId adminId : Option String)
    (now : Int) : EmailLog :=
  { recipient := recipient, subject := subject, status := status,
    errorMessage := errorMessage, eventId := eventId, invitationId := invitationId,
    adminId := adminId, createdAt := now }

/-- `logEmail`: insert the audit record; if the store write throws, the error is
logged to the console and swallowed, leaving no record behind.  Returns the list of
rows actually persisted. -/
def logEmail (auditOk : Bool) (rec : EmailLog) : List EmailLog :=
  if auditOk then [rec] else []

/-- The result union `EmailStatus` of the email module. -/
inductive EmailStatus where
  | disabled
  | sent
  | error (message : String)
  | rate_limited (message : String)
deriving DecidableEq, Repr

/-- The audit outcome recorded for each result of `sendInvitationEmail`. -/
def resultStatus : EmailStatus → PrismaEmailStatus
  | .sent => .SENT
  | .error _ => .FAILED
  | .disabled => .DISABLED
  | .rate_limited _ => .RATE_LIMITED

/-- `InvitationEmailOptions` (`to` is a reserved token in Lean, hence `toAddr`). -/
structure InvitationEmailOptions where
  toAddr : String
  link : String
  event : Event
  invitationId : Option String
  adminId : Option String
  skipRateCheck : Bool
deriving DecidableEq, Repr

/-- `Date.toISOString`, modelled as the decimal rendering of the epoch-millisecond
timestamp; no claim depends on the textual format of dates. -/
def isoString (t : Int) : String := toString t

/-- `sendInvitationEmail`.  `settings` is the row read by `getEmailConfig`, `logs`
the audit-log snapshot visible to its rate check, `transportOk`/`transportErrMsg`
the outcome of `transporter.sendMail`, `auditOk` whether the audit insert succeeds.
Returns the result and the audit rows persisted by this call.  (`fromName` only
shapes the `from` display header and the rendered body is only handed to the
transport; neither is persisted, so they are computed and discarded here.) -/
def sendInvitationEmail (opts : InvitationEmailOptions)
    (settings : Option SystemSetting) (envPerHour envPerDay : Int)
    (logs : List EmailLog) (now : Int) (transportOk : Bool)
    (transportErrMsg : String) (auditOk : Bool) : EmailStatus × List EmailLog :=
  let fromAddress := jsOrOpt opts.event.senderEmail (settings.bind (·.smtpFromAddress))
  let subjectTemplate := jsOrStr opts.event.invitationEmailSubject DEFAULT_SUBJECT
  let bodyTemplate :=
    ensureInviteLinkPlaceholder (jsOrStr opts.event.invitationEmailBody DEFAULT_BODY)
  let context : TemplateContext :=
    { eventName := some opts.event.name, eventDescription := opts.event.description,
      eventStart := some (isoString opts.event.startsAt),
      eventEnd := some (isoString opts.event.endsAt), inviteLink := some opts.link }
  let subject := renderTemplate subjectTemplate context
  let _body := renderTemplate bodyTemplate context
  if !(isEmailSendingEnabled settings) || !(optStrTruthy fromAddress) then
    (.disabled,
      logEmail auditOk (mkLog opts.toAddr subject .DISABLED (some "SMTP nicht konfiguriert")
        (some opts.event.id) opts.invitationId opts.adminId now))
  else if !opts.skipRateCheck &&
      !(checkRateLimit opts.adminId settings envPerHour envPerDay logs now).allowed then
    let rate := checkRateLimit opts.adminId settings envPerHour envPerDay logs now
    (.rate_limited (rate.message.getD "Rate-Limit erreicht"),
      logEmail auditOk (mkLog opts.toAddr subject .RATE_LIMITED rate.message
        (some opts.event.id) opts.invitationId opts.adminId now))
  else if transportOk then
    (.sent,
      logEmail auditOk (mkLog opts.toAddr subject .SENT none (some opts.event.id)
        opts.invitationId opts.adminId now))
  else
    (.error transportErrMsg,
      logEmail auditOk (mkLog opts.toAddr subject .FAILED (some transportErrMsg)
        (some opts.event.id) opts.invitationId opts.adminId now))

/-! ## `POST /api/admin/events/:id/invitations` (`src/backend/src/index.ts`) -/

/-- The request body (`InvitationPayload`). -/
structure DispatchReq where
  deliveryMethod : DeliveryMethod
  email : Option String
deriving DecidableEq, Repr

/-- Environment of one dispatch request: time, generated token, configuration, the
store snapshots seen by each read, and the external outcomes.  Distinct snapshots
(`settingsAtBoundary` vs `settingsAtPrecheck` vs `settingsAtSend`, `logsAtPrecheck`
vs `logsAtSend`) model writes interleaved by concurrent requests between the
handler's successive reads. -/
structure DispatchEnv where
  now : Int
  token : String
  baseUrl : String
  envPerHour : Int
  envPerDay : Int
  settingsAtBoundary : Option SystemSetting
  settingsAtPrecheck : Option SystemSetting
  settingsAtSend : Option SystemSetting
  logsAtPrecheck : List EmailLog
  logsAtSend : List EmailLog
  transportOk : Bool
  transportErrMsg : String
  auditOk : Bool
deriving DecidableEq, Repr

/-- The handler's response, by status code and payload. -/
inductive CreateResult where
  | notFound (message : String)
  | invalidRequest (message : String)
  | disabledBoundary (message : String)
  | rateLimited (message : String)
  | serverError (message : String)
  | created (invitation : Invitation) (link : String)
deriving DecidableEq, Repr

/-- Durable side effects of one dispatch request: the surviving invitation row (after
any compensating delete), whether the compensating delete ran, and the audit rows
persisted. -/
structure DispatchEffects where
  invitation : Option Invitation
  invitationDeleted : Bool
  audits : List EmailLog
deriving DecidableEq, Repr

/-- The invitation-creation handler.  The direct `prisma.emailLog.create` performed
on pre-check denial is modelled as succeeding (`logEmail`'s catch — the subject of
`auditOk` — wraps only the email module's inserts). -/
def createInvitation (env : DispatchEnv) (adminId : Option String)
    (eventRow : Option Event) (req : DispatchReq) (invId : String) :
    CreateResult × DispatchEffects :=
  match eventRow with
  | none => (.notFound "Event not found", ⟨none, false, []⟩)
  | some event =>
    if req.deliveryMethod = DeliveryMethod.EMAIL ∧ optStrTruthy req.email = false then
      (.invalidRequest "Email is required for email invitations", ⟨none, false, []⟩)
    else if req.deliveryMethod = DeliveryMethod.EMAIL ∧
        isEmailSendingEnabled env.settingsAtBoundary = false then
      (.disabledBoundary "E-Mail-Versand ist nicht konfiguriert. Bitte SMTP einrichten.",
        ⟨none, false, []⟩)
    else
      let rate := precheckRateLimit adminId env.settingsAtPrecheck env.envPerHour
        env.envPerDay env.logsAtPrecheck env.now
      if req.deliveryMethod = DeliveryMethod.EMAIL ∧ optStrTruthy adminId = true ∧
          rate.allowed = false then
        (.rateLimited (rate.message.getD "Rate-Limit erreicht"),
          ⟨none, false,
            [mkLog (req.email.getD "")
              (jsOrStr event.invitationEmailSubject ("Einladung: " ++ event.name))
              .RATE_LIMITED (some (rate.message.getD "Rate-Limit erreicht"))
              (some event.id) none adminId env.now]⟩)
      else
        let invitation := mkInvitation invId event.id env.token req.deliveryMethod
          req.email env.now
        let link := env.baseUrl ++ "/join/" ++ env.token
        if req.deliveryMethod = DeliveryMethod.EMAIL ∧ optStrTruthy req.email = true then
          let sendRes := sendInvitationEmail
            ⟨req.email.getD "", link, event, some invId, adminId, true⟩
            env.settingsAtSend env.envPerHour env.envPerDay env.logsAtSend env.now
            env.transportOk env.transportErrMsg env.auditOk
          match sendRes.1 with
          | .rate_limited m => (.rateLimited m, ⟨none, true, sendRes.2⟩)
          | .error m => (.serverError m, ⟨some invitation, false, sendRes.2⟩)
          | _ => (.created invitation link, ⟨some invitation, false, sendRes.2⟩)
        else
          (.created invitation link, ⟨some invitation, false, []⟩)

/-! ## `PUT /api/admin/events/:eventId/invitations/:invitationId` -/

/-- The row update applied by the handler: flip `isActive`, stamp `deactivatedAt` on
deactivation, clear it on activation. -/
def setActiveData (inv : Invitation) (isActive : Bool) (now : Int) : Invitation :=
  { inv with isActive := isActive,
             deactivatedAt := if isActive then none else some now }

/-- The handler's response. -/
inductive PutInvitationResult where
  | badRequest (message : String)
  | notFound (message : String)
  | ok (invitation : Invitation)
deriving DecidableEq, Repr

/-- The activation-toggle handler: 400 without a boolean body, 404 unless an
invitation with this id belongs to this event, otherwise the update. -/
def putInvitationActive (invitations : List Invitation) (eventId invitationId : String)
    (body : Option Bool) (now : Int) : PutInvitationResult :=
  match body with
  | none => .badRequest "isActive muss gesetzt werden"
  | some b =>
    match invitations.find? (fun i => decide (i.id = invitationId ∧ i.eventId = eventId)) with
    | none => .notFound "Invitation not found"
    | some inv => .ok (setActiveData inv b now)

/-- A sequence of toggles applied to one invitation row. -/
def applyToggles (inv : Invitation) (ops : List (Bool × Int)) : Invitation :=
  ops.foldl (fun i p => setActiveData i p.1 p.2) inv

/-- The §3 invariant: `deactivatedAt` is set iff `isActive` is false. -/
def deactivationInvariant (inv : Invitation) : Prop :=
  inv.deactivatedAt.isSome = true ↔ inv.isActive = false

instance (inv : Invitation) : Decidable (deactivationInvariant inv) := by
  unfold deactivationInvariant; infer_instance

/-! ## `DELETE /api/admin/events/:id` and the retention cleanup -/

/-- The `prisma.$transaction` of the delete handler: one atomic transition removing
the event's audit records, cache finds, invitations, caches, players and the event
row itself.  Every `deleteMany` filter refers to the pre-transaction state (the
cache-find delete runs before the cache delete). -/
def deleteEventTx (id : String) (db : Db) : Db :=
  { events := db.events.filter fun e => decide (e.id ≠ id),
    invitations := db.invitations.filter fun i => decide (i.eventId ≠ id),
    caches := db.caches.filter fun c => decide (c.eventId ≠ id),
    cacheFinds := db.cacheFinds.filter fun f =>
      decide (¬ ∃ c ∈ db.caches, c.id = f.cacheId ∧ c.eventId = id),
    players := db.players.filter fun p => decide (p.eventId ≠ id),
    emailLogs := db.emailLogs.filter fun l => decide (l.eventId ≠ some id) }

/-- One iteration of the retention cleanup (`src/unnamed/part_001`): four separate,
non-transactional deletes — cache finds of the event's caches, the event's
invitations, its caches, the event row.  Audit records are not touched. -/
def retentionStep (evtId : String) (db : Db) : Db :=
  { events := db.events.filter fun e => decide (e.id ≠ evtId),
    invitations := db.invitations.filter fun i => decide (i.eventId ≠ evtId),
    caches := db.caches.filter fun c => decide (c.eventId ≠ evtId),
    cacheFinds := db.cacheFinds.filter fun f =>
      decide (¬ ∃ c ∈ db.caches, c.id = f.cacheId ∧ c.eventId = evtId),
    players := db.players,
    emailLogs := db.emailLogs }

/-- The retention cleanup run: the expired-event id list is computed once, then each
event is removed in turn. -/
def retentionRun (cutoff : Int) (db : Db) : Db :=
  ((db.events.filter fun e => decide (e.endsAt < cutoff)).map (·.id)).foldl
    (fun d i => retentionStep i d) db

/-! ## `GET /api/admin/events/:id/email-logs` -/

/-- Stable insertion into a list kept sorted by `createdAt` descending. -/
def insertByCreatedAtDesc (x : EmailLog) : List EmailLog → List EmailLog
  | [] => [x]
  | y :: ys =>
    if x.createdAt ≤ y.createdAt then y :: insertByCreatedAtDesc x ys
    else x :: y :: ys

/-- The store's `orderBy: \x7b createdAt: 'desc' \x7d`, modelled as a stable sort. -/
def sortByCreatedAtDesc (l : List EmailLog) : List EmailLog :=
  l.foldr insertByCreatedAtDesc []

/-- The email-log listing handler: filter by event, filter by status only when the
query value is a truthy member of the enum (otherwise the filter is dropped), order
newest first, take at most 100 rows. -/
def listEmailLogs (logs : List EmailLog) (id : String) (status : Option String) :
    List EmailLog :=
  let base := logs.filter fun l => decide (l.eventId = some id)
  let filtered :=
    match status with
    | none => base
    | some s =>
      match emailStatusOfString s with
      | some st => base.filter fun l => decide (l.status = st)
      | none => base
  (sortByCreatedAtDesc filtered).take 100

/-! ## `GET /join/:token` -/

/-- The join handler's response. -/
inductive JoinResult where
  | notFound (message : String)
  | badRequest (message : String)
  | ok (event : Event) (token : String) (deliveryMethod : DeliveryMethod)
  | brokenRelation
deriving DecidableEq, Repr

/-- The event row of an invitation (the `include \x7b event: true \x7d` join). -/
def eventOf (db : Db) (inv : Invitation) : Option Event :=
  db.events.find? fun e => decide (e.id = inv.eventId)

/-- The join-resolution handler: 404 for an unknown token; a fixed neutral message
for an inactive invitation; "Event expired" for an ended event; otherwise the event
view and invitation metadata.  `brokenRelation` marks the state excluded by the
foreign key (an invitation whose event row is missing); the handler itself cannot
return it. -/
def joinResolve (db : Db) (token : String) (now : Int) : JoinResult :=
  match db.invitations.find? (fun i => decide (i.token = token)) with
  | none => .notFound "Invitation not found"
  | some inv =>
    if inv.isActive = false then
      .badRequest "Diese Einladung ist nicht mehr gültig."
    else
      match eventOf db inv with
      | none => .brokenRelation
      | some ev =>
        if ev.endsAt < now then .badRequest "Event expired"
        else .ok ev inv.token inv.deliveryMethod

/-! ## Helper lemmas -/

theorem str_data_append (s t : String) : (s ++ t).data = s.data ++ t.data := rfl

theorem isPrefixOf_append_self (t y : List Char) : t.isPrefixOf (t ++ y) = true := by
  induction t with
  | nil => simp [List.isPrefixOf]
  | cons c cs ih => simp [List.isPrefixOf, ih]

theorem containsSub_of_isPrefixOf (s t : List Char) (h : t.isPrefixOf s = true) :
    containsSub s t = true := by
  cases s with
  | nil => simpa [containsSub] using h
  | cons c rest => simp [containsSub, h]

theorem containsSub_cons_of (c : Char) (s t : List Char) (h : containsSub s t = true) :
    containsSub (c :: s) t = true := by
  simp [containsSub, h]

theorem containsSub_append_middle (x t y : List Char) :
    containsSub ((x ++ t) ++ y) t = true := by
  induction x with
  | nil => simpa using containsSub_of_isPrefixOf (t ++ y) t (isPrefixOf_append_self t y)
  | cons c cs ih => simpa using containsSub_cons_of c ((cs ++ t) ++ y) t ih

theorem hourMessage_ne_dayMessage (m n : Int) : hourMessage m ≠ dayMessage n := by
  intro h
  have h2 := congrArg (fun s : String => s.data.reverse) h
  simp only [hourMessage, dayMessage, str_data_append, List.reverse_append] at h2
  rw [show [' ', 'p', 'r', 'o', ' ', 'S', 't', 'u', 'n', 'd', 'e', ')', '.'].reverse
        = '.' :: ')' :: 'e' :: ['d', 'n', 'u', 't', 'S', ' ', 'o', 'r', 'p', ' '] from by decide,
     show [' ', 'p', 'r', 'o', ' ', 'T', 'a', 'g', ')', '.'].reverse
        = '.' :: ')' :: 'g' :: ['a', 'T', ' ', 'o', 'r', 'p', ' '] from by decide] at h2
  simp only [List.cons_append] at h2
  injection h2 with _ h3
  injection h3 with _ h4
  injection h4 with h5 _
  exact absurd h5 (by decide)

theorem countEmails_cons_rate_limited (rec : EmailLog)
    (h : rec.status = PrismaEmailStatus.RATE_LIMITED) (logs : List EmailLog)
    (a : String) (since : Int) :
    countEmails (rec :: logs) a since = countEmails logs a since := by
  unfold countEmails
  rw [List.countP_cons]
  simp [h]

/-! ## Quota-window predicates (the claim's language) -/

/-- The hourly window is exhausted: the configured hourly ceiling is positive and the
count of non-rate-limited audit records for the operator in the last hour reaches it. -/
def hourWindowHit (settings : Option SystemSetting) (envPerHour envPerDay : Int)
    (logs : List EmailLog) (a : String) (now : Int) : Prop :=
  0 < (getRateLimitConfig settings envPerHour envPerDay).perHour ∧
    (getRateLimitConfig settings envPerHour envPerDay).perHour ≤
      (countEmails logs a (now - 60 * 60 * 1000) : Int)

/-- The daily window is exhausted. -/
def dayWindowHit (settings : Option SystemSetting) (envPerHour envPerDay : Int)
    (logs : List EmailLog) (a : String) (now : Int) : Prop :=
  0 < (getRateLimitConfig settings envPerHour envPerDay).perDay ∧
    (getRateLimitConfig settings envPerHour envPerDay).perDay ≤
      (countEmails logs a (now - 24 * 60 * 60 * 1000) : Int)

instance (settings : Option SystemSetting) (eh ed : Int) (logs : List EmailLog)
    (a : String) (now : Int) : Decidable (hourWindowHit settings eh ed logs a now) := by
  unfold hourWindowHit; infer_instance

instance (settings : Option SystemSetting) (eh ed : Int) (logs : List EmailLog)
    (a : String) (now : Int) : Decidable (dayWindowHit settings eh ed logs a now) := by
  unfold dayWindowHit; infer_instance

theorem checkRateLimit_cases (a : String) (ha : a.isEmpty = false)
    (settings : Option SystemSetting) (envPerHour envPerDay : Int)
    (logs : List EmailLog) (now : Int) :
    checkRateLimit (some a) settings envPerHour envPerDay logs now =
      if hourWindowHit settings envPerHour envPerDay logs a now then
        ⟨false, some (hourMessage (getRateLimitConfig settings envPerHour envPerDay).perHour)⟩
      else if dayWindowHit settings envPerHour envPerDay logs a now then
        ⟨false, some (dayMessage (getRateLimitConfig settings envPerHour envPerDay).perDay)⟩
      else ⟨true, none⟩ := by
  simp only [checkRateLimit, ha, Bool.false_eq_true, if_false, hourWindowHit, dayWindowHit]

/-- C1: for every operator and call time, `checkRateLimit` evaluates the hourly
window first: it denies with the message naming the hourly ceiling iff the configured
hourly ceiling is positive and the count of non-rate-limited audit records of the
operator in the last hour reaches it, and the result is then independent of the daily
window; otherwise it denies with the message naming the daily ceiling iff the daily
ceiling is positive and the 24-hour count reaches it; otherwise it allows.  A ceiling
of 0 disables the window, so two zero ceilings always allow; and each denial message
names its ceiling literally. -/
theorem quota_check_window_order (a : String) (ha : a.isEmpty = false)
    (settings : Option SystemSetting) (envPerHour envPerDay : Int)
    (logs : List EmailLog) (now : Int) :
    (checkRateLimit (some a) settings envPerHour envPerDay logs now =
        ⟨false, some (hourMessage (getRateLimitConfig settings envPerHour envPerDay).perHour)⟩ ↔
      hourWindowHit settings envPerHour envPerDay logs a now) ∧
    (checkRateLimit (some a) settings envPerHour envPerDay logs now =
        ⟨false, some (dayMessage (getRateLimitConfig settings envPerHour envPerDay).perDay)⟩ ↔
      (¬ hourWindowHit settings envPerHour envPerDay logs a now ∧
        dayWindowHit settings envPerHour envPerDay logs a now)) ∧
    (checkRateLimit (some a) settings envPerHour envPerDay logs now = ⟨true, none⟩ ↔
      (¬ hourWindowHit settings envPerHour envPerDay logs a now ∧
        ¬ dayWindowHit settings envPerHour envPerDay logs a now)) ∧
    (hourWindowHit settings envPerHour envPerDay logs a now →
      ∀ logs2 : List EmailLog,
        countEmails logs2 a (now - 60 * 60 * 1000) =
          countEmails logs a (now - 60 * 60 * 1000) →
        checkRateLimit (some a) settings envPerHour envPerDay logs2 now =
          checkRateLimit (some a) settings envPerHour envPerDay logs now) ∧
    ((getRateLimitConfig settings envPerHour envPerDay).perHour = 0 ∧
        (getRateLimitConfig settings envPerHour envPerDay).perDay = 0 →
      checkRateLimit (some a) settings envPerHour envPerDay logs now = ⟨true, none⟩) ∧
    (strIncludes
        (hourMessage (getRateLimitConfig settings envPerHour envPerDay).perHour)
        (toString (getRateLimitConfig settings envPerHour envPerDay).perHour) = true ∧
      strIncludes
        (dayMessage (getRateLimitConfig settings envPerHour envPerDay).perDay)
        (toString (getRateLimitConfig settings envPerHour envPerDay).perDay) = true) := by
  rw [checkRateLimit_cases a ha settings envPerHour envPerDay logs now]
  by_cases hH : hourWindowHit settings envPerHour envPerDay logs a now
  · rw [if_pos hH]
    refine ⟨by simp [hH], ?_, by simp [hH], ?_, ?_, ?_, ?_⟩
    · constructor
      · intro h
        exact absurd (Option.some.inj (congrArg RateCheck.message h))
          (hourMessage_ne_dayMessage _ _)
      · rintro ⟨h1, _⟩; exact absurd hH h1
    · intro _ logs2 hcount
      rw [checkRateLimit_cases a ha settings envPerHour envPerDay logs2 now]
      have hH2 : hourWindowHit settings envPerHour envPerDay logs2 a now := by
        unfold hourWindowHit at hH ⊢; rw [hcount]; exact hH
      rw [if_pos hH2]
    · rintro ⟨h0, _⟩
      exact absurd hH (by unfold hourWindowHit; rw [h0]; simp)
    · exact containsSub_append_middle _ _ _
    · exact containsSub_append_middle _ _ _
  · rw [if_neg hH]
    by_cases hD : dayWindowHit settings envPerHour envPerDay logs a now
    · rw [if_pos hD]
      refine ⟨?_, ⟨fun _ => ⟨hH, hD⟩, fun _ => rfl⟩, ?_, ?_, ?_, ?_⟩
      · constructor
        · intro h
          exact absurd (Option.some.inj (congrArg RateCheck.message h)).symm
            (hourMessage_ne_dayMessage _ _)
        · intro h1; exact absurd h1 hH
      · refine ⟨fun h => ?_, fun h2 => absurd hD h2.2⟩
        simp at h
      · intro h1; exact absurd h1 hH
      · rintro ⟨_, h0⟩
        exact absurd hD (by unfold dayWindowHit; rw [h0]; simp)
      · exact ⟨containsSub_append_middle _ _ _, containsSub_append_middle _ _ _⟩
    · rw [if_neg hD]
      refine ⟨?_, ?_, ⟨fun _ => ⟨hH, hD⟩, fun _ => rfl⟩, ?_, fun _ => rfl, ?_⟩
      · refine ⟨fun h => ?_, fun h1 => absurd h1 hH⟩
        simp at h
      · refine ⟨fun h => ?_, fun h2 => absurd h2.2 hD⟩
        simp at h
      · intro h1; exact absurd h1 hH
      · exact ⟨containsSub_append_middle _ _ _, containsSub_append_middle _ _ _⟩

/-- Witness for `quota_check_window_order` at a concrete operator, configuration and
audit trail: hourly ceiling 2 reached by two `SENT` records in the last hour. -/
theorem quota_check_window_order_witness :
    ("op1" : String).isEmpty = false ∧
    (checkRateLimit (some "op1")
        (some ⟨some "h", some 25, none, some "f@x", none, some "u", some "p",
          some 2, some 10⟩) 50 200
        [mkLog "r1" "s" PrismaEmailStatus.SENT none none none (some "op1") 900,
         mkLog "r2" "s" PrismaEmailStatus.SENT none none none (some "op1") 800] 1000 =
      ⟨false, some (hourMessage 2)⟩ ↔
      hourWindowHit
        (some ⟨some "h", some 25, none, some "f@x", none, some "u", some "p",
          some 2, some 10⟩) 50 200
        [mkLog "r1" "s" PrismaEmailStatus.SENT none none none (some "op1") 900,
         mkLog "r2" "s" PrismaEmailStatus.SENT none none none (some "op1") 800]
        "op1" 1000) := by
  constructor
  · decide
  · have h := quota_check_window_order "op1" (by decide)
      (some ⟨some "h", some 25, none, some "f@x", none, some "u", some "p",
        some 2, some 10⟩) 50 200
      [mkLog "r1" "s" PrismaEmailStatus.SENT none none none (some "op1") 900,
       mkLog "r2" "s" PrismaEmailStatus.SENT none none none (some "op1") 800] 1000
    simpa using h.1

/-- C4: audit records with outcome `RATE_LIMITED` are excluded from the quota counts,
so recording one leaves every subsequent quota-check result unchanged. -/
theorem rate_limited_records_not_counted (rec : EmailLog)
    (h : rec.status = PrismaEmailStatus.RATE_LIMITED) (a : String) (since : Int)
    (adminId : Option String) (settings : Option SystemSetting)
    (envPerHour envPerDay : Int) (logs : List EmailLog) (now : Int) :
    countEmails (rec :: logs) a since = countEmails logs a since ∧
    checkRateLimit adminId settings envPerHour envPerDay (rec :: logs) now =
      checkRateLimit adminId settings envPerHour envPerDay logs now := by
  refine ⟨countEmails_cons_rate_limited rec h logs a since, ?_⟩
  simp only [checkRateLimit, countEmails_cons_rate_limited rec h]

/-- Witness for `rate_limited_records_not_counted`: a concrete `RATE_LIMITED` record
prepended to an audit trail that sits exactly at the hourly ceiling. -/
theorem rate_limited_records_not_counted_witness :
    countEmails
        [mkLog "r" "s" PrismaEmailStatus.RATE_LIMITED none none none (some "op1") 950,
         mkLog "r1" "s" PrismaEmailStatus.SENT none none none (some "op1") 900] "op1" 0 =
      countEmails [mkLog "r1" "s" PrismaEmailStatus.SENT none none none (some "op1") 900]
        "op1" 0 ∧
    checkRateLimit (some "op1") none 1 200
        [mkLog "r" "s" PrismaEmailStatus.RATE_LIMITED none none none (some "op1") 950,
         mkLog "r1" "s" PrismaEmailStatus.SENT none none none (some "op1") 900] 1000 =
      checkRateLimit (some "op1") none 1 200
        [mkLog "r1" "s" PrismaEmailStatus.SENT none none none (some "op1") 900] 1000 :=
  rate_limited_records_not_counted
    (mkLog "r" "s" PrismaEmailStatus.RATE_LIMITED none none none (some "op1") 950)
    rfl "op1" 0 (some "op1") none 1 200
    [mkLog "r1" "s" PrismaEmailStatus.SENT none none none (some "op1") 900] 1000

theorem applyToggles_cons (inv : Invitation) (p : Bool × Int) (ops : List (Bool × Int)) :
    applyToggles inv (p :: ops) = applyToggles (setActiveData inv p.1 p.2) ops := rfl

theorem setActiveData_invariant (inv : Invitation) (b : Bool) (now : Int) :
    deactivationInvariant (setActiveData inv b now) := by
  cases b <;> simp [deactivationInvariant, setActiveData]

/-- C7: join resolution returns `NotFound` iff no invitation carries the token; an
existing but inactive invitation yields the fixed neutral message (never a not-found,
and — because the inactive check runs before the expiry check — even when the owning
event has also ended, never "Event expired"); an active invitation of an ended event
yields "Event expired"; otherwise the event view and invitation metadata. -/
theorem join_resolution_order (db : Db) (tok : String) (now : Int) :
    (db.invitations.find? (fun i => decide (i.token = tok)) = none ↔
      joinResolve db tok now = .notFound "Invitation not found") ∧
    (∀ inv, db.invitations.find? (fun i => decide (i.token = tok)) = some inv →
      inv.isActive = false →
      joinResolve db tok now = .badRequest "Diese Einladung ist nicht mehr gültig.") ∧
    ((∀ m, (JoinResult.badRequest "Diese Einladung ist nicht mehr gültig.") ≠ .notFound m) ∧
      ("Diese Einladung ist nicht mehr gültig." : String) ≠ "Event expired") ∧
    (∀ inv ev, db.invitations.find? (fun i => decide (i.token = tok)) = some inv →
      inv.isActive = true → eventOf db inv = some ev → ev.endsAt < now →
      joinResolve db tok now = .badRequest "Event expired") ∧
    (∀ inv ev, db.invitations.find? (fun i => decide (i.token = tok)) = some inv →
      inv.isActive = true → eventOf db inv = some ev → ¬ (ev.endsAt < now) →
      joinResolve db tok now = .ok ev inv.token inv.deliveryMethod) := by
  refine ⟨?_, ?_, ⟨fun m h => JoinResult.noConfusion h, by decide⟩, ?_, ?_⟩
  · cases hfind : db.invitations.find? (fun i => decide (i.token = tok)) with
    | none => exact ⟨fun _ => by simp [joinResolve, hfind], fun _ => rfl⟩
    | some inv =>
      refine ⟨fun h => Option.noConfusion h, fun h => ?_⟩
      exfalso
      simp only [joinResolve, hfind] at h
      split at h
      · exact JoinResult.noConfusion h
      · split at h
        · exact JoinResult.noConfusion h
        · split at h
          · exact JoinResult.noConfusion h
          · exact JoinResult.noConfusion h
  · intro inv hfind hact
    simp only [joinResolve, hfind]
    rw [if_pos hact]
  · intro inv ev hfind hact hev hex
    simp only [joinResolve, hfind, hact, hev]
    simp [hex]
  · intro inv ev hfind hact hev hex
    simp only [joinResolve, hfind, hact, hev]
    simp [hex]

/-- Witness for `join_resolution_order`: a store with one deactivated invitation of an
already-ended event resolves to the neutral message (inactive wins over expiry). -/
theorem join_resolution_order_witness :
    (Db.mk [⟨"E", "Fest", none, 0, 10, none, none, none, none⟩]
        [⟨"I", "E", "tk", DeliveryMethod.LINK, none, false, 0, some 5, none⟩]
        [] [] [] []).invitations.find? (fun i => decide (i.token = "tk")) =
      some ⟨"I", "E", "tk", DeliveryMethod.LINK, none, false, 0, some 5, none⟩ ∧
    (⟨"I", "E", "tk", DeliveryMethod.LINK, none, false, 0, some 5, none⟩ :
        Invitation).isActive = false ∧
    joinResolve
        (Db.mk [⟨"E", "Fest", none, 0, 10, none, none, none, none⟩]
          [⟨"I", "E", "tk", DeliveryMethod.LINK, none, false, 0, some 5, none⟩]
          [] [] [] []) "tk" 100 =
      .badRequest "Diese Einladung ist nicht mehr gültig." :=
  ⟨by decide, rfl,
    (join_resolution_order
      (Db.mk [⟨"E", "Fest", none, 0, 10, none, none, none, none⟩]
        [⟨"I", "E", "tk", DeliveryMethod.LINK, none, false, 0, some 5, none⟩]
        [] [] [] []) "tk" 100).2.1
      ⟨"I", "E", "tk", DeliveryMethod.LINK, none, false, 0, some 5, none⟩
      (by decide) rfl⟩

/-- C9: `deactivatedAt` is set iff `isActive` is false — it holds of a freshly created
invitation, is (re-)established by every activation toggle (deactivation stamps the
timestamp, activation clears it) and hence by every non-empty toggle sequence and by
every row the toggle handler returns; finishing any toggle sequence with an activation
leaves `isActive = true` and `deactivatedAt = null`. -/
theorem invitation_active_invariant :
    (∀ id eventId token dm email now,
      deactivationInvariant (mkInvitation id eventId token dm email now)) ∧
    (∀ inv b now,
      deactivationInvariant (setActiveData inv b now) ∧
      (setActiveData inv false now).deactivatedAt = some now ∧
      (setActiveData inv false now).isActive = false ∧
      (setActiveData inv true now).deactivatedAt = none ∧
      (setActiveData inv true now).isActive = true) ∧
    (∀ inv ops, ops ≠ [] → deactivationInvariant (applyToggles inv ops)) ∧
    (∀ inv ops now,
      (setActiveData (applyToggles inv ops) true now).isActive = true ∧
      (setActiveData (applyToggles inv ops) true now).deactivatedAt = none) ∧
    (∀ invitations eventId invitationId b now inv2,
      putInvitationActive invitations eventId invitationId (some b) now = .ok inv2 →
      deactivationInvariant inv2) := by
  have hseq : ∀ (ops : List (Bool × Int)) (inv : Invitation), ops ≠ [] →
      deactivationInvariant (applyToggles inv ops) := by
    intro ops
    induction ops with
    | nil => intro inv h; exact absurd rfl h
    | cons p rest ih =>
      intro inv _
      cases rest with
      | nil => exact setActiveData_invariant inv p.1 p.2
      | cons q rest2 =>
        rw [applyToggles_cons]
        exact ih (setActiveData inv p.1 p.2) (by simp)
  refine ⟨?_, ?_, fun inv ops h => hseq ops inv h, ?_, ?_⟩
  · intro id eventId token dm email now
    simp [deactivationInvariant, mkInvitation]
  · intro inv b now
    exact ⟨setActiveData_invariant inv b now, rfl, rfl, rfl, rfl⟩
  · intro inv ops now
    exact ⟨rfl, rfl⟩
  · intro invitations eventId invitationId b now inv2 h
    unfold putInvitationActive at h
    cases hfind : invitations.find?
        (fun i => decide (i.id = invitationId ∧ i.eventId = eventId)) with
    | none => rw [hfind] at h; exact PutInvitationResult.noConfusion h
    | some inv =>
      rw [hfind] at h
      injection h with h2
      exact h2 ▸ setActiveData_invariant inv b now

/-- Witness for `invitation_active_invariant`: deactivate twice, then reactivate —
the invariant holds and the final row is active with `deactivatedAt` cleared. -/
theorem invitation_active_invariant_witness :
    ([((false : Bool), (5 : Int)), (false, 6)] : List (Bool × Int)) ≠ [] ∧
    deactivationInvariant
      (applyToggles (mkInvitation "I" "E" "tk" DeliveryMethod.EMAIL (some "g@x") 0)
        [(false, 5), (false, 6)]) ∧
    (setActiveData
        (applyToggles (mkInvitation "I" "E" "tk" DeliveryMethod.EMAIL (some "g@x") 0)
          [(false, 5), (false, 6)]) true 7).isActive = true ∧
    (setActiveData
        (applyToggles (mkInvitation "I" "E" "tk" DeliveryMethod.EMAIL (some "g@x") 0)
          [(false, 5), (false, 6)]) true 7).deactivatedAt = none :=
  ⟨by decide,
    invitation_active_invariant.2.2.1 _ [(false, 5), (false, 6)] (by decide),
    (invitation_active_invariant.2.2.2.1 _ [(false, 5), (false, 6)] 7).1,
    (invitation_active_invariant.2.2.2.1 _ [(false, 5), (false, 6)] 7).2⟩

theorem enabled_fromAddress (x : Option String) (settings : Option SystemSetting)
    (h : isEmailSendingEnabled settings = true) :
    optStrTruthy (jsOrOpt x (settings.bind (·.smtpFromAddress))) = true := by
  cases settings with
  | none => simp [isEmailSendingEnabled] at h
  | some st =>
    simp only [isEmailSendingEnabled, Bool.and_eq_true] at h
    obtain ⟨⟨⟨⟨-, -⟩, hf⟩, -⟩, -⟩ := h
    unfold jsOrOpt
    by_cases hx : optStrTruthy x = true
    · simp [hx]
    · simpa [hx, Option.bind] using hf

theorem send_skip_not_rate_limited (opts : InvitationEmailOptions)
    (settings : Option SystemSetting) (eh ed : Int) (logs : List EmailLog) (now : Int)
    (tOk : Bool) (tMsg : String) (aOk : Bool) (h : opts.skipRateCheck = true) (m : String) :
    (sendInvitationEmail opts settings eh ed logs now tOk tMsg aOk).1 ≠
      .rate_limited m := by
  unfold sendInvitationEmail
  dsimp only
  simp only [h, Bool.not_true, Bool.false_and, Bool.false_eq_true, if_false]
  repeat' split
  all_goals simp

theorem send_audit_trace (opts : InvitationEmailOptions) (settings : Option SystemSetting)
    (eh ed : Int) (logs : List EmailLog) (now : Int) (tOk : Bool) (tMsg : String) :
    ((sendInvitationEmail opts settings eh ed logs now tOk tMsg true).2).map (·.status) =
      [resultStatus (sendInvitationEmail opts settings eh ed logs now tOk tMsg true).1] := by
  unfold sendInvitationEmail
  dsimp only
  repeat' split
  all_goals simp [logEmail, mkLog, resultStatus]

theorem send_fst_ignores_audit (opts : InvitationEmailOptions)
    (settings : Option SystemSetting) (eh ed : Int) (logs : List EmailLog) (now : Int)
    (tOk : Bool) (tMsg : String) (aOk1 aOk2 : Bool) :
    (sendInvitationEmail opts settings eh ed logs now tOk tMsg aOk1).1 =
      (sendInvitationEmail opts settings eh ed logs now tOk tMsg aOk2).1 := by
  unfold sendInvitationEmail
  dsimp only
  repeat' split
  all_goals simp [logEmail]

theorem send_snd_audit_failed (opts : InvitationEmailOptions)
    (settings : Option SystemSetting) (eh ed : Int) (logs : List EmailLog) (now : Int)
    (tOk : Bool) (tMsg : String) :
    (sendInvitationEmail opts settings eh ed logs now tOk tMsg false).2 = [] := by
  unfold sendInvitationEmail
  dsimp only
  repeat' split
  all_goals simp [logEmail]

/-- C10: a failing audit-store write inside `logEmail` is swallowed: the dispatch
result is unchanged, no audit row is persisted, and in particular a dispatch whose
transport send succeeds still reports `sent` while leaving no audit record behind. -/
theorem audit_write_failure_swallowed (opts : InvitationEmailOptions)
    (settings : Option SystemSetting) (eh ed : Int) (logs : List EmailLog) (now : Int)
    (tOk : Bool) (tMsg : String) :
    ((sendInvitationEmail opts settings eh ed logs now tOk tMsg false).1 =
      (sendInvitationEmail opts settings eh ed logs now tOk tMsg true).1) ∧
    ((sendInvitationEmail opts settings eh ed logs now tOk tMsg false).2 = []) ∧
    (isEmailSendingEnabled settings = true → tOk = true → opts.skipRateCheck = true →
      sendInvitationEmail opts settings eh ed logs now tOk tMsg false = (.sent, [])) := by
  refine ⟨send_fst_ignores_audit opts settings eh ed logs now tOk tMsg false true,
    send_snd_audit_failed opts settings eh ed logs now tOk tMsg, ?_⟩
  intro h1 h2 h3
  unfold sendInvitationEmail
  rw [if_neg, if_neg]
  · rw [if_pos h2]
    simp [logEmail]
  · simp [h3]
  · simp [h1, enabled_fromAddress opts.event.senderEmail settings h1]

/-- Witness for `audit_write_failure_swallowed`: a concrete configured deployment
whose audit insert fails still returns `sent` with an empty audit trail. -/
theorem audit_write_failure_swallowed_witness :
    isEmailSendingEnabled
        (some ⟨some "h", some 25, none, some "f@x", none, some "u", some "p",
          some 2, some 10⟩) = true ∧
    (true : Bool) = true ∧
    (InvitationEmailOptions.mk "g@x" "http://l/join/tk"
        ⟨"E", "Fest", none, 0, 10, none, none, none, none⟩ (some "I") (some "op1")
        true).skipRateCheck = true ∧
    sendInvitationEmail
        (InvitationEmailOptions.mk "g@x" "http://l/join/tk"
          ⟨"E", "Fest", none, 0, 10, none, none, none, none⟩ (some "I") (some "op1") true)
        (some ⟨some "h", some 25, none, some "f@x", none, some "u", some "p",
          some 2, some 10⟩) 50 200 [] 1000 true "boom" false = (.sent, []) :=
  ⟨by decide, rfl, rfl,
    (audit_write_failure_swallowed
      (InvitationEmailOptions.mk "g@x" "http://l/join/tk"
        ⟨"E", "Fest", none, 0, 10, none, none, none, none⟩ (some "I") (some "op1") true)
      (some ⟨some "h", some 25, none, some "f@x", none, some "u", some "p",
        some 2, some 10⟩) 50 200 [] 1000 true "boom").2.2 (by decide) rfl rfl⟩

/-- Concrete data for the dispatch counterexample: hourly ceiling 1. -/
def cexSettings : SystemSetting :=
  ⟨some "h", some 25, none, some "f@x", none, some "u", some "p", some 1, some 100⟩

def cexEvent : Event := ⟨"E", "Fest", none, 0, 2000, none, none, none, none⟩

/-- A `SENT` audit record of operator `op1`, written (by a concurrent dispatch)
between this request's pre-check read and its render-and-send step. -/
def cexPriorLog : EmailLog := mkLog "r1" "s" .SENT none (some "E") none (some "op1") 900

def cexEnv : DispatchEnv :=
  ⟨1000, "tok", "http://localhost:5173", 50, 200, some cexSettings, some cexSettings,
    some cexSettings, [], [cexPriorLog], true, "", true⟩

/-- Counterexample to C2: an `EMAIL` dispatch of operator `op1` passes the pre-quota
gate (its pre-check snapshot is empty), and by the render-and-send step the audit
trail visible to the handler already denies the quota (hourly ceiling 1 reached).
The claimed authoritative re-check after token issuance would now deny, delete the
invitation and record `RATE_LIMITED` — but the handler calls `sendInvitationEmail`
with `skipRateCheck = true`, so the dispatch sends, records `SENT` and keeps the
invitation: no re-check happens. -/
theorem send_skips_authoritative_recheck_cex :
    (checkRateLimit (some "op1") (some cexSettings) 50 200 [cexPriorLog] 1000).allowed
        = false ∧
    (createInvitation cexEnv (some "op1") (some cexEvent) ⟨.EMAIL, some "g@x"⟩ "inv1").1
        = .created (mkInvitation "inv1" "E" "tok" .EMAIL (some "g@x") 1000)
            "http://localhost:5173/join/tok" ∧
    (createInvitation cexEnv (some "op1") (some cexEvent) ⟨.EMAIL, some "g@x"⟩
        "inv1").2.invitationDeleted = false ∧
    (createInvitation cexEnv (some "op1") (some cexEvent) ⟨.EMAIL, some "g@x"⟩
        "inv1").2.invitation.isSome = true ∧
    ((createInvitation cexEnv (some "op1") (some cexEvent) ⟨.EMAIL, some "g@x"⟩
        "inv1").2.audits.map (·.status)) = [.SENT] := by
  decide

/-- C2 (amended): the handler issues the token after a single pre-issuance quota
check and calls `sendInvitationEmail` with `skipRateCheck = true`; with the skip flag
set the email module never returns `rate_limited`, so the handler's compensating
branch (delete the invitation, return 429) is unreachable and no dispatch request
ever deletes an invitation. -/
theorem no_post_issuance_quota_recheck (opts : InvitationEmailOptions)
    (settings : Option SystemSetting) (eh ed : Int) (logs : List EmailLog) (now : Int)
    (tOk : Bool) (tMsg : String) (aOk : Bool) (h : opts.skipRateCheck = true) :
    (∀ m, (sendInvitationEmail opts settings eh ed logs now tOk tMsg aOk).1 ≠
      .rate_limited m) ∧
    (∀ env adminId eventRow req invId,
      (createInvitation env adminId eventRow req invId).2.invitationDeleted = false) := by
  refine ⟨send_skip_not_rate_limited opts settings eh ed logs now tOk tMsg aOk h, ?_⟩
  intro env adminId eventRow req invId
  unfold createInvitation
  cases eventRow with
  | none => rfl
  | some event =>
    dsimp only
    repeat' split
    all_goals try rfl
    rename_i m heq
    exact absurd heq (send_skip_not_rate_limited _ _ _ _ _ _ _ _ _ rfl m)

/-- Witness for `no_post_issuance_quota_recheck` at concrete inputs. -/
theorem no_post_issuance_quota_recheck_witness :
    (InvitationEmailOptions.mk "g@x" "http://l/join/tk" cexEvent (some "I") (some "op1")
        true).skipRateCheck = true ∧
    (sendInvitationEmail
        (InvitationEmailOptions.mk "g@x" "http://l/join/tk" cexEvent (some "I")
          (some "op1") true)
        (some cexSettings) 50 200 [cexPriorLog] 1000 true "" true).1 ≠
      .rate_limited "Limit erreicht (1 pro Stunde)." ∧
    (createInvitation cexEnv (some "op1") (some cexEvent) ⟨.EMAIL, some "g@x"⟩
        "inv1").2.invitationDeleted = false :=
  ⟨rfl,
    (no_post_issuance_quota_recheck
      (InvitationEmailOptions.mk "g@x" "http://l/join/tk" cexEvent (some "I")
        (some "op1") true)
      (some cexSettings) 50 200 [cexPriorLog] 1000 true "" true rfl).1
      "Limit erreicht (1 pro Stunde).",
    (no_post_issuance_quota_recheck
      (InvitationEmailOptions.mk "g@x" "http://l/join/tk" cexEvent (some "I")
        (some "op1") true)
      (some cexSettings) 50 200 [cexPriorLog] 1000 true "" true rfl).2
      cexEnv (some "op1") (some cexEvent) ⟨.EMAIL, some "g@x"⟩ "inv1"⟩

/-- C3: with a working audit store, a request rejected as invalid (`EMAIL` without a
truthy recipient) or as disabled at the pre-flight boundary leaves no invitation and
no audit record; a rate-limited outcome carries exactly one `RATE_LIMITED` record and
no invitation; a failed transport send carries exactly one `FAILED` record and keeps
the invitation; a successful `EMAIL` dispatch carries exactly one `SENT` (or, when
SMTP was unconfigured mid-flight, one `DISABLED`) record; and every
`sendInvitationEmail` run persists exactly one audit record carrying its outcome. -/
theorem dispatch_audit_trace (env : DispatchEnv) (adminId : Option String)
    (eventRow : Option Event) (req : DispatchReq) (invId : String)
    (hA : env.auditOk = true) (r : CreateResult) (eff : DispatchEffects)
    (hrun : createInvitation env adminId eventRow req invId = (r, eff)) :
    ((∀ m, r = .invalidRequest m → eff.audits = [] ∧ eff.invitation = none) ∧
     (∀ m, r = .disabledBoundary m → eff.audits = [] ∧ eff.invitation = none) ∧
     (∀ m, r = .rateLimited m →
        eff.audits.map (·.status) = [PrismaEmailStatus.RATE_LIMITED] ∧
        eff.invitation = none) ∧
     (∀ m, r = .serverError m →
        eff.audits.map (·.status) = [PrismaEmailStatus.FAILED] ∧
        eff.invitation.isSome = true) ∧
     (∀ inv lnk, r = .created inv lnk → req.deliveryMethod = DeliveryMethod.EMAIL →
        eff.audits.map (·.status) = [PrismaEmailStatus.SENT] ∨
        eff.audits.map (·.status) = [PrismaEmailStatus.DISABLED])) ∧
    (∀ opts settings logs tOk tMsg,
      ((sendInvitationEmail opts settings env.envPerHour env.envPerDay logs env.now
          tOk tMsg true).2).map (·.status) =
        [resultStatus (sendInvitationEmail opts settings env.envPerHour env.envPerDay
          logs env.now tOk tMsg true).1]) := by
  refine ⟨?_, fun opts settings logs tOk tMsg => send_audit_trace _ _ _ _ _ _ _ _⟩
  unfold createInvitation at hrun
  cases eventRow with
  | none =>
    injection hrun with h1 h2
    subst h1; subst h2
    simp
  | some event =>
    rw [hA] at hrun
    dsimp only at hrun
    repeat' split at hrun
    all_goals injection hrun with h1 h2
    all_goals subst h1
    all_goals subst h2
    · simp
    · simp
    · simp [mkLog]
    · rename_i m heq
      refine ⟨by simp, by simp, fun m2 hm => ⟨?_, rfl⟩, by simp, by simp⟩
      rw [show (DispatchEffects.mk none true _).audits = _ from rfl,
        send_audit_trace _ _ _ _ _ _ _ _, heq]
      rfl
    · rename_i m heq
      refine ⟨by simp, by simp, by simp, fun m2 hm => ⟨?_, rfl⟩, by simp⟩
      rw [show (DispatchEffects.mk _ false _).audits = _ from rfl,
        send_audit_trace _ _ _ _ _ _ _ _, heq]
      rfl
    · rename_i heq1 heq2
      refine ⟨by simp, by simp, by simp, by simp, fun inv lnk hc hm => ?_⟩
      rw [show (DispatchEffects.mk _ false _).audits = _ from rfl,
        send_audit_trace _ _ _ _ _ _ _ _]
      cases hs : (sendInvitationEmail
          ⟨req.email.getD "", env.baseUrl ++ "/join/" ++ env.token, event, some invId,
            adminId, true⟩ env.settingsAtSend env.envPerHour env.envPerDay
          env.logsAtSend env.now env.transportOk env.transportErrMsg true).1 with
      | sent => left; rfl
      | disabled => right; rfl
      | rate_limited m => exact absurd hs (by exact heq1 m)
      | error m => exact absurd hs (by exact heq2 m)
    · simp
      intro hm
      by_cases hE : optStrTruthy req.email = true
      · exact (by assumption :
          ¬(req.deliveryMethod = DeliveryMethod.EMAIL ∧ optStrTruthy req.email = true))
          ⟨hm, hE⟩
      · exact (by assumption :
          ¬(req.deliveryMethod = DeliveryMethod.EMAIL ∧ optStrTruthy req.email = false))
          ⟨hm, by simpa using hE⟩

/-- Witness for `dispatch_audit_trace`: the unknown-event run, which trivially has a
working audit store and a computable outcome. -/
theorem dispatch_audit_trace_witness :
    (DispatchEnv.mk 0 "t" "b" 1 1 none none none [] [] true "" true).auditOk = true ∧
    createInvitation (DispatchEnv.mk 0 "t" "b" 1 1 none none none [] [] true "" true)
        none none ⟨DeliveryMethod.LINK, none⟩ "i"
      = (.notFound "Event not found", ⟨none, false, []⟩) ∧
    (((∀ m, CreateResult.notFound "Event not found" = .invalidRequest m →
        (DispatchEffects.mk none false []).audits = [] ∧
        (DispatchEffects.mk none false []).invitation = none) ∧
      (∀ m, CreateResult.notFound "Event not found" = .disabledBoundary m →
        (DispatchEffects.mk none false []).audits = [] ∧
        (DispatchEffects.mk none false []).invitation = none) ∧
      (∀ m, CreateResult.notFound "Event not found" = .rateLimited m →
        (DispatchEffects.mk none false []).audits.map (·.status) =
          [PrismaEmailStatus.RATE_LIMITED] ∧
        (DispatchEffects.mk none false []).invitation = none) ∧
      (∀ m, CreateResult.notFound "Event not found" = .serverError m →
        (DispatchEffects.mk none false []).audits.map (·.status) =
          [PrismaEmailStatus.FAILED] ∧
        (DispatchEffects.mk none false []).invitation.isSome = true) ∧
      (∀ inv lnk, CreateResult.notFound "Event not found" = .created inv lnk →
        DeliveryMethod.LINK = DeliveryMethod.EMAIL →
        (DispatchEffects.mk none false []).audits.map (·.status) =
          [PrismaEmailStatus.SENT] ∨
        (DispatchEffects.mk none false []).audits.map (·.status) =
          [PrismaEmailStatus.DISABLED])) ∧
     (∀ opts settings logs tOk tMsg,
        ((sendInvitationEmail opts settings 1 1 logs 0 tOk tMsg true).2).map (·.status) =
          [resultStatus
            (sendInvitationEmail opts settings 1 1 logs 0 tOk tMsg true).1])) :=
  ⟨rfl, rfl,
    dispatch_audit_trace (DispatchEnv.mk 0 "t" "b" 1 1 none none none [] [] true "" true)
      none none ⟨DeliveryMethod.LINK, none⟩ "i" rfl (.notFound "Event not found")
      ⟨none, false, []⟩ rfl⟩

/-! ## Event deletion and retention (C5) -/

/-- A store holding one expired event, one invitation of it, and one audit record
referencing both. -/
def c5Db : Db :=
  ⟨[⟨"E", "Alt", none, 0, 5, none, none, none, none⟩],
    [⟨"I", "E", "tk", DeliveryMethod.LINK, none, true, 0, none, none⟩],
    [], [], [],
    [mkLog "r" "s" .SENT none (some "E") (some "I") (some "op1") 3]⟩

/-- Counterexample to C5: the retention cleanup deletes the event and its
invitations but leaves the audit record referencing the deleted event (and its
deleted invitation) behind — an orphaned audit record survives the deletion. -/
theorem retention_leaves_orphan_audit_cex :
    (retentionRun 10 c5Db).events = [] ∧
    (retentionRun 10 c5Db).invitations = [] ∧
    (retentionRun 10 c5Db).emailLogs.map (·.eventId) = [some "E"] ∧
    (retentionRun 10 c5Db).emailLogs.map (·.invitationId) = [some "I"] := by
  decide

/-- A store with two events, an invitation and an audit record each. -/
def c5DbW : Db :=
  ⟨[⟨"E", "Alt", none, 0, 5, none, none, none, none⟩,
    ⟨"F", "Neu", none, 0, 50, none, none, none, none⟩],
    [⟨"I", "E", "t1", DeliveryMethod.LINK, none, true, 0, none, none⟩,
     ⟨"J", "F", "t2", DeliveryMethod.LINK, none, true, 0, none, none⟩],
    [], [], [],
    [mkLog "r" "s" .SENT none (some "E") (some "I") none 1,
     mkLog "r" "s" .SENT none (some "F") (some "J") none 2]⟩

/-- C5 (amended): deletion through the admin endpoint runs as one transaction
(modelled as a single state transition) and removes every invitation of the event,
every audit record whose `eventId` references it, and the event row; under the
writers' invariant that an audit record referencing one of the event's invitations
also carries the event's id, no surviving audit record references any of the event's
invitations either.  The retention cleanup, by contrast, never touches the audit
records. -/
theorem delete_event_cascades (db : Db) (id : String) :
    (∀ inv ∈ (deleteEventTx id db).invitations, inv.eventId ≠ id) ∧
    (∀ l ∈ (deleteEventTx id db).emailLogs, l.eventId ≠ some id) ∧
    (∀ e ∈ (deleteEventTx id db).events, e.id ≠ id) ∧
    ((∀ l ∈ db.emailLogs, ∀ inv ∈ db.invitations,
        l.invitationId = some inv.id → inv.eventId = id → l.eventId = some id) →
      ∀ l ∈ (deleteEventTx id db).emailLogs, ∀ inv ∈ db.invitations,
        inv.eventId = id → l.invitationId ≠ some inv.id) ∧
    (∀ db2 evtId, (retentionStep evtId db2).emailLogs = db2.emailLogs) := by
  refine ⟨?_, ?_, ?_, ?_, fun db2 evtId => rfl⟩
  · intro inv h
    have := (List.mem_filter.mp h).2
    simpa using this
  · intro l h
    have := (List.mem_filter.mp h).2
    simpa using this
  · intro e h
    have := (List.mem_filter.mp h).2
    simpa using this
  · intro hwf l hl inv hinv hev hcontra
    have hmem := (List.mem_filter.mp hl).1
    have hne : l.eventId ≠ some id := by simpa using (List.mem_filter.mp hl).2
    exact hne (hwf l hmem inv hinv hcontra hev)

/-- Witness for `delete_event_cascades`: the retention run leaves the audit table of
`c5Db` untouched, and in `c5DbW` the audit record surviving the deletion of event
`E` does not reference `E`'s invitation. -/
theorem delete_event_cascades_witness :
    (retentionStep "E" c5Db).emailLogs = c5Db.emailLogs ∧
    (mkLog "r" "s" .SENT none (some "F") (some "J") none 2).invitationId ≠
      some (Invitation.mk "I" "E" "t1" DeliveryMethod.LINK none true 0 none none).id :=
  ⟨(delete_event_cascades c5Db "E").2.2.2.2 c5Db "E",
    (delete_event_cascades c5DbW "E").2.2.2.1 (by decide)
      (mkLog "r" "s" .SENT none (some "F") (some "J") none 2) (by decide)
      (Invitation.mk "I" "E" "t1" DeliveryMethod.LINK none true 0 none none)
      (by decide) rfl⟩

/-! ## Email-log listing (C6) -/

theorem mem_insertByCreatedAtDesc (x a : EmailLog) (l : List EmailLog) :
    a ∈ insertByCreatedAtDesc x l ↔ a = x ∨ a ∈ l := by
  induction l with
  | nil => simp [insertByCreatedAtDesc]
  | cons y ys ih =>
    unfold insertByCreatedAtDesc
    by_cases h : x.createdAt ≤ y.createdAt
    · rw [if_pos h]
      simp only [List.mem_cons, ih]
      tauto
    · rw [if_neg h]
      simp only [List.mem_cons]

theorem pairwise_insertByCreatedAtDesc (x : EmailLog) (l : List EmailLog)
    (hl : l.Pairwise (fun a b => b.createdAt ≤ a.createdAt)) :
    (insertByCreatedAtDesc x l).Pairwise (fun a b => b.createdAt ≤ a.createdAt) := by
  induction l with
  | nil => simp [insertByCreatedAtDesc]
  | cons y ys ih =>
    rw [List.pairwise_cons] at hl
    obtain ⟨hy, hys⟩ := hl
    unfold insertByCreatedAtDesc
    by_cases h : x.createdAt ≤ y.createdAt
    · rw [if_pos h]
      rw [List.pairwise_cons]
      refine ⟨?_, ih hys⟩
      intro b hb
      rcases (mem_insertByCreatedAtDesc x b ys).mp hb with hbx | hby
      · exact hbx ▸ h
      · exact hy b hby
    · rw [if_neg h]
      rw [List.pairwise_cons]
      refine ⟨?_, List.pairwise_cons.mpr ⟨hy, hys⟩⟩
      intro b hb
      rcases List.mem_cons.mp hb with hbx | hby
      · subst hbx; omega
      · have := hy b hby; omega

theorem pairwise_sortByCreatedAtDesc (l : List EmailLog) :
    (sortByCreatedAtDesc l).Pairwise (fun a b => b.createdAt ≤ a.createdAt) := by
  induction l with
  | nil => simp [sortByCreatedAtDesc]
  | cons y ys ih => exact pairwise_insertByCreatedAtDesc y _ ih

theorem mem_sortByCreatedAtDesc (a : EmailLog) (l : List EmailLog) :
    a ∈ sortByCreatedAtDesc l ↔ a ∈ l := by
  induction l with
  | nil => simp [sortByCreatedAtDesc]
  | cons y ys ih =>
    show a ∈ insertByCreatedAtDesc y (sortByCreatedAtDesc ys) ↔ _
    rw [mem_insertByCreatedAtDesc, ih]
    simp [eq_comm]

def c6Log1 : EmailLog := mkLog "a" "s" .SENT none (some "E") none none 1

def c6Log2 : EmailLog := mkLog "b" "s" .FAILED none (some "E") none none 2

/-- Counterexample to C6: `"BOGUS"` is outside the status enumeration, yet the
listing does not reject the request — the filter is silently dropped and the query
returns all of the event's records (both statuses), exactly as the unfiltered
listing does. -/
theorem unknown_status_filter_ignored_cex :
    emailStatusOfString "BOGUS" = none ∧
    listEmailLogs [c6Log1, c6Log2] "E" (some "BOGUS") =
      listEmailLogs [c6Log1, c6Log2] "E" none ∧
    (listEmailLogs [c6Log1, c6Log2] "E" (some "BOGUS")).map (·.status) =
      [.FAILED, .SENT] := by
  decide

/-- C6 (amended): the listing returns the event's audit records newest first, bounded
to the fixed page size 100, and a recognized status filter selects exactly that
status — but a status value outside the enumeration is silently ignored (the filter
is dropped and the request behaves like the unfiltered one) rather than rejected. -/
theorem email_logs_listing (logs : List EmailLog) (id : String)
    (statusQ : Option String) :
    (∀ s, statusQ = some s → emailStatusOfString s = none →
      listEmailLogs logs id statusQ = listEmailLogs logs id none) ∧
    (∀ s st, statusQ = some s → emailStatusOfString s = some st →
      ∀ l ∈ listEmailLogs logs id statusQ, l.status = st) ∧
    (listEmailLogs logs id statusQ).length ≤ 100 ∧
    (listEmailLogs logs id statusQ).Pairwise (fun a b => b.createdAt ≤ a.createdAt) ∧
    (∀ l ∈ listEmailLogs logs id statusQ, l.eventId = some id ∧ l ∈ logs) := by
  refine ⟨?_, ?_, ?_, ?_, ?_⟩
  · intro s hs hnone
    subst hs
    unfold listEmailLogs
    dsimp only
    rw [hnone]
  · intro s st hs hst l hl
    subst hs
    unfold listEmailLogs at hl
    dsimp only at hl
    rw [hst] at hl
    have hsort := List.mem_of_mem_take hl
    rw [mem_sortByCreatedAtDesc] at hsort
    have := (List.mem_filter.mp hsort).2
    simpa using this
  · exact List.length_take_le 100 _
  · exact (pairwise_sortByCreatedAtDesc _).sublist (List.take_sublist 100 _)
  · intro l hl
    have hbase : l ∈ logs.filter fun l2 => decide (l2.eventId = some id) := by
      cases statusQ with
      | none =>
        unfold listEmailLogs at hl
        dsimp only at hl
        have hsort := List.mem_of_mem_take hl
        rwa [mem_sortByCreatedAtDesc] at hsort
      | some s =>
        unfold listEmailLogs at hl
        dsimp only at hl
        cases h : emailStatusOfString s with
        | none =>
          rw [h] at hl
          have hsort := List.mem_of_mem_take hl
          rwa [mem_sortByCreatedAtDesc] at hsort
        | some st =>
          rw [h] at hl
          have hsort := List.mem_of_mem_take hl
          rw [mem_sortByCreatedAtDesc] at hsort
          exact (List.mem_filter.mp hsort).1
    refine ⟨?_, (List.mem_filter.mp hbase).1⟩
    have := (List.mem_filter.mp hbase).2
    simpa using this

/-- Witness for `email_logs_listing`: a recognized filter on a concrete trail,
applied through the theorem. -/
theorem email_logs_listing_witness :
    (listEmailLogs [c6Log1, c6Log2] "E" (some "SENT")).length ≤ 100 ∧
    (listEmailLogs [c6Log1, c6Log2] "E" (some "SENT")).Pairwise
      (fun a b => b.createdAt ≤ a.createdAt) ∧
    c6Log1.status = PrismaEmailStatus.SENT :=
  ⟨(email_logs_listing [c6Log1, c6Log2] "E" (some "SENT")).2.2.1,
    (email_logs_listing [c6Log1, c6Log2] "E" (some "SENT")).2.2.2.1,
    (email_logs_listing [c6Log1, c6Log2] "E" (some "SENT")).2.1 "SENT"
      PrismaEmailStatus.SENT rfl rfl c6Log1 (by decide)⟩

/-! ## String lemmas for the ensure-link helper (C8) -/

theorem isPrefixOf_iff_append (su s : List Char) :
    su.isPrefixOf s = true ↔ ∃ r, s = su ++ r := by
  induction su generalizing s with
  | nil => simp [List.isPrefixOf]
  | cons c cs ih =>
    cases s with
    | nil => simp [List.isPrefixOf]
    | cons d ds =>
      simp only [List.isPrefixOf, Bool.and_eq_true, beq_iff_eq, ih, List.cons_append]
      constructor
      · rintro ⟨hcd, r, hr⟩
        exact ⟨r, by rw [hcd, hr]⟩
      · rintro ⟨r, hr⟩
        injection hr with h1 h2
        exact ⟨h1.symm, r, h2⟩

theorem length_le_of_isPrefixOf (su s : List Char) (h : su.isPrefixOf s = true) :
    su.length ≤ s.length := by
  obtain ⟨r, rfl⟩ := (isPrefixOf_iff_append su s).mp h
  simp

theorem length_le_of_containsSub (s su : List Char) (h : containsSub s su = true) :
    su.length ≤ s.length := by
  induction s with
  | nil =>
    simp only [containsSub] at h
    exact length_le_of_isPrefixOf su [] h
  | cons c rest ih =>
    simp only [containsSub, Bool.or_eq_true] at h
    rcases h with h | h
    · exact length_le_of_isPrefixOf _ _ h
    · exact (ih h).trans (by simp)

theorem isPrefixOf_self (t : List Char) : t.isPrefixOf t = true :=
  (isPrefixOf_iff_append t t).mpr ⟨[], by simp⟩

theorem containsSub_self (t : List Char) : containsSub t t = true :=
  containsSub_of_isPrefixOf t t (isPrefixOf_self t)

theorem containsSub_append_left (t y : List Char) : containsSub (t ++ y) t = true :=
  containsSub_of_isPrefixOf _ _ (isPrefixOf_append_self t y)

theorem containsSub_append_right (x t : List Char) : containsSub (x ++ t) t = true := by
  simpa using containsSub_append_middle x t []

theorem containsSub_replaceFirstAux (su repl : List Char) :
    ∀ s, containsSub s su = true → containsSub (replaceFirstAux su repl s) repl = true := by
  intro s
  induction s with
  | nil =>
    intro h
    simp only [containsSub] at h
    unfold replaceFirstAux
    rw [if_pos h]
    exact containsSub_self repl
  | cons c rest ih =>
    intro h
    unfold replaceFirstAux
    by_cases hp : su.isPrefixOf (c :: rest) = true
    · rw [if_pos hp]
      exact containsSub_append_left repl _
    · rw [if_neg hp]
      apply containsSub_cons_of
      apply ih
      simp only [containsSub, Bool.or_eq_true] at h
      rcases h with h | h
      · exact absurd h hp
      · exact h

theorem ensureInviteLink_contains (body link : String) :
    strIncludes (ensureInviteLink body link) link = true := by
  unfold ensureInviteLink
  by_cases h1 : strIncludes body link = true
  · rw [if_pos h1]
    exact h1
  · rw [if_neg h1]
    by_cases h2 : strIncludes body "\x7b\x7binviteLink\x7d\x7d" = true
    · rw [if_pos h2]
      exact containsSub_replaceFirstAux _ _ body.data h2
    · rw [if_neg h2]
      show containsSub ((body ++ "\n\n").data ++ link.data) link.data = true
      exact containsSub_append_right _ _

theorem take_append_le_len (n : Nat) (x y : List Char) (h : n ≤ x.length) :
    (x ++ y).take n = x.take n := by
  induction x generalizing n with
  | nil =>
    have : n = 0 := by simpa using h
    simp [this]
  | cons c cs ih =>
    cases n with
    | zero => simp
    | succ m =>
      simp only [List.cons_append, List.take_succ_cons]
      rw [ih m (by simpa using h)]

theorem take_append_ge_len (n : Nat) (x y : List Char) (h : x.length ≤ n) :
    (x ++ y).take n = x ++ y.take (n - x.length) := by
  induction x generalizing n with
  | nil => simp
  | cons c cs ih =>
    cases n with
    | zero => simp at h
    | succ m =>
      simp only [List.cons_append, List.take_succ_cons, List.length_cons]
      rw [ih m (by simpa using h)]
      simp [Nat.succ_sub_succ]

theorem cross_occurrence (B2 L : List Char)
    (h : L.isPrefixOf (B2 ++ '\n' :: '\n' :: L) = true) :
    containsSub B2 L = true ∨ '\n' ∈ L := by
  obtain ⟨r, hr⟩ := (isPrefixOf_iff_append L _).mp h
  by_cases hlen : L.length ≤ B2.length
  · left
    have h1 : B2.take L.length = L := by
      rw [← take_append_le_len L.length B2 ('\n' :: '\n' :: L) hlen, hr,
        take_append_le_len _ _ _ (le_refl _), List.take_length]
    have h2 : L.isPrefixOf B2 = true := by
      refine (isPrefixOf_iff_append L B2).mpr ⟨B2.drop L.length, ?_⟩
      conv_lhs => rw [← List.take_append_drop L.length B2]
      rw [h1]
    exact containsSub_of_isPrefixOf _ _ h2
  · right
    push_neg at hlen
    have h1 : L = B2 ++ ('\n' :: '\n' :: L).take (L.length - B2.length) := by
      rw [← take_append_ge_len _ _ _ (le_of_lt hlen), hr,
        take_append_le_len _ _ _ (le_refl _), List.take_length]
    rcases Nat.exists_eq_add_of_le (by omega : 1 ≤ L.length - B2.length) with ⟨k, hk⟩
    have hmem : '\n' ∈ ('\n' :: '\n' :: L).take (L.length - B2.length) := by
      rw [hk, Nat.add_comm 1 k, List.take_succ_cons]
      exact List.mem_cons_self _ _
    have h2 : '\n' ∈ B2 ++ ('\n' :: '\n' :: L).take (L.length - B2.length) :=
      List.mem_append_right _ hmem
    rwa [← h1] at h2

theorem countOcc_eq_zero_of_not_contains (su s : List Char)
    (h : containsSub s su = false) : countOcc su s = 0 := by
  induction s with
  | nil =>
    simp only [containsSub] at h
    simp [countOcc, h]
  | cons c rest ih =>
    simp only [containsSub, Bool.or_eq_false_iff] at h
    obtain ⟨h1, h2⟩ := h
    simp [countOcc, h1, ih h2]

theorem countOcc_append_self (L : List Char) (hne : L ≠ []) (hnl : '\n' ∉ L) :
    ∀ B, containsSub B L = false → countOcc L (B ++ '\n' :: '\n' :: L) = 1 := by
  intro B
  induction B with
  | nil =>
    intro _
    obtain ⟨c, L', rfl⟩ : ∃ c L', L = c :: L' := by
      cases L with
      | nil => exact absurd rfl hne
      | cons c L' => exact ⟨c, L', rfl⟩
    have hcn : c ≠ '\n' := by
      intro hc
      subst hc
      exact hnl (List.mem_cons_self _ _)
    have hb : (c == '\n') = false := beq_eq_false_iff_ne.mpr hcn
    have hL' : containsSub L' (c :: L') = false := by
      cases hq : containsSub L' (c :: L') with
      | false => rfl
      | true =>
        have hlen2 := length_le_of_containsSub _ _ hq
        simp only [List.length_cons] at hlen2
        omega
    simp [countOcc, List.isPrefixOf, hb, isPrefixOf_self,
      countOcc_eq_zero_of_not_contains _ _ hL']
  | cons c B ih =>
    intro hB
    have hB' : containsSub B L = false := by
      cases hq : containsSub B L with
      | false => rfl
      | true => simp [containsSub, hq] at hB
    have hp : L.isPrefixOf ((c :: B) ++ '\n' :: '\n' :: L) = false := by
      cases hq : L.isPrefixOf ((c :: B) ++ '\n' :: '\n' :: L) with
      | false => rfl
      | true =>
        rcases cross_occurrence (c :: B) L hq with hcon | hmem
        · rw [hB] at hcon
          exact Bool.noConfusion hcon
        · exact absurd hmem hnl
    have hstep : countOcc L ((c :: B) ++ '\n' :: '\n' :: L) =
        (if L.isPrefixOf ((c :: B) ++ '\n' :: '\n' :: L) = true then 1 else 0) +
          countOcc L (B ++ '\n' :: '\n' :: L) := rfl
    rw [hstep, hp, ih hB']
    simp

/-- Counterexample to C8: (i) for a body that already carries the placeholder but
not the literal link, `ensureInviteLink` does not return the body unchanged — it
substitutes the link for the placeholder; (ii) "contains the literal link exactly
once" fails for a link ending in the separator the helper itself appends: with
`body = "q"` and `link = "q\n\n"` (neither placeholder nor link present in the
body), the result contains the link twice. -/
theorem ensure_invite_link_cex :
    (strIncludes "Hallo \x7b\x7binviteLink\x7d\x7d" "XY" = false ∧
      strIncludes "Hallo \x7b\x7binviteLink\x7d\x7d" "\x7b\x7binviteLink\x7d\x7d" = true ∧
      ensureInviteLink "Hallo \x7b\x7binviteLink\x7d\x7d" "XY" = "Hallo XY" ∧
      ("Hallo XY" : String) ≠ "Hallo \x7b\x7binviteLink\x7d\x7d") ∧
    (strIncludes "q" "q\n\n" = false ∧
      strIncludes "q" "\x7b\x7binviteLink\x7d\x7d" = false ∧
      countOcc ("q\n\n" : String).data (ensureInviteLink "q" "q\n\n").data = 2) := by
  decide

/-- C8 (amended): `ensureInviteLink` appends a default line containing the literal
link iff neither the `\x7b\x7binviteLink\x7d\x7d` placeholder nor the literal link is
already present; if the link is present the body is returned unchanged, and if only
the placeholder is present the placeholder's first occurrence is replaced by the
link (the body is not returned unchanged).  The result always contains the link, so
the helper is idempotent; and starting from a body containing neither, the result
contains the literal link exactly once provided the link is non-empty and free of
newlines (a link ending in the appended separator can otherwise occur twice). -/
theorem ensure_invite_link_spec (body link : String) :
    (strIncludes body link = true → ensureInviteLink body link = body) ∧
    (strIncludes body link = false →
      strIncludes body "\x7b\x7binviteLink\x7d\x7d" = true →
      ensureInviteLink body link = replaceFirst body "\x7b\x7binviteLink\x7d\x7d" link) ∧
    (strIncludes body link = false →
      strIncludes body "\x7b\x7binviteLink\x7d\x7d" = false →
      ensureInviteLink body link = body ++ "\n\n" ++ link) ∧
    (strIncludes (ensureInviteLink body link) link = true) ∧
    (ensureInviteLink (ensureInviteLink body link) link = ensureInviteLink body link) ∧
    (strIncludes body link = false →
      strIncludes body "\x7b\x7binviteLink\x7d\x7d" = false →
      link.data ≠ [] → '\n' ∉ link.data →
      countOcc link.data (ensureInviteLink body link).data = 1) := by
  refine ⟨?_, ?_, ?_, ensureInviteLink_contains body link, ?_, ?_⟩
  · intro h1
    unfold ensureInviteLink
    rw [if_pos h1]
  · intro h1 h2
    unfold ensureInviteLink
    rw [if_neg (by simp [h1]), if_pos h2]
  · intro h1 h2
    unfold ensureInviteLink
    rw [if_neg (by simp [h1]), if_neg (by simp [h2])]
  · nth_rewrite 1 [ensureInviteLink]
    rw [if_pos (ensureInviteLink_contains body link)]
  · intro h1 h2 hne hnl
    have h3 : ensureInviteLink body link = body ++ "\n\n" ++ link := by
      unfold ensureInviteLink
      rw [if_neg (by simp [h1]), if_neg (by simp [h2])]
    rw [h3]
    have h4 : (body ++ "\n\n" ++ link).data =
        body.data ++ '\n' :: '\n' :: link.data := by
      rw [str_data_append, str_data_append,
        show ("\n\n" : String).data = ['\n', '\n'] from by decide, List.append_assoc]
      rfl
    rw [h4]
    exact countOcc_append_self link.data hne hnl body.data h1

/-- Witness for `ensure_invite_link_spec`: a body containing neither the placeholder
nor the link; the appended result carries the link exactly once and re-application
is a no-op. -/
theorem ensure_invite_link_spec_witness :
    strIncludes "Hallo" "http://x" = false ∧
    strIncludes "Hallo" "\x7b\x7binviteLink\x7d\x7d" = false ∧
    ("http://x" : String).data ≠ [] ∧
    '\n' ∉ ("http://x" : String).data ∧
    countOcc ("http://x" : String).data (ensureInviteLink "Hallo" "http://x").data = 1 ∧
    ensureInviteLink (ensureInviteLink "Hallo" "http://x") "http://x" =
      ensureInviteLink "Hallo" "http://x" :=
  ⟨by decide, by decide, by decide, by decide,
    (ensure_invite_link_spec "Hallo" "http://x").2.2.2.2.2 (by decide) (by decide)
      (by decide) (by decide),
    (ensure_invite_link_spec "Hallo" "http://x").2.2.2.2.1⟩
